import Mathlib

/-!
Verification of the retrieval-and-refusal core of the kernel-studio backend.

Shallow embedding conventions used throughout this file:
* Python floats are modelled as `ℚ` (all arithmetic in the verified code paths is
  field arithmetic on small decimal constants).
* Python dict-shaped records are modelled as structures with `Option` fields; an
  absent key is `none`, and each read site applies its own Python default via
  `Option.getD`, exactly mirroring the `dict.get(key, default)` calls in the source.
* Python `defaultdict`/`dict` accumulation is modelled as a left fold over the input
  list carrying an insertion-ordered key list together with a total lookup function.
* Fallible or external operations (vector distance) are passed in as explicit
  function parameters.
-/

/-- Python `" ".join(ws)`: the words of `ws` joined by single spaces. -/
def sepJoin : List String → String
  | [] => ""
  | [w] => w
  | w :: ws => w ++ " " ++ sepJoin ws

/-- Helper for `pySplit`: scan the character list, accumulating the current word in
reverse in `acc` and emitting it whenever whitespace (or the end) is reached, so
empty pieces are never produced. -/
def pySplitChars : List Char → List Char → List String
  | [], acc => if acc.isEmpty then [] else [String.mk acc.reverse]
  | c :: cs, acc =>
    if c.isWhitespace then
      if acc.isEmpty then pySplitChars cs []
      else String.mk acc.reverse :: pySplitChars cs []
    else pySplitChars cs (c :: acc)

/-- Python `text.split()` (no separator argument): split on runs of whitespace and
drop the empty pieces, so the result is the list of maximal whitespace-free words. -/
def pySplit (text : String) : List String :=
  pySplitChars text.toList []

/-- Python `needle in haystack` on strings: substring containment. -/
def pyIn (needle haystack : String) : Bool :=
  decide (needle.toList <:+: haystack.toList)

/-- Python `max(scores)` for a nonempty list, and the source fallback value `0.0`
for an empty one (`max(scores) if scores else 0.0` in `_calculate_refusal_score`). -/
def listMax : List ℚ → ℚ
  | [] => 0
  | x :: xs => xs.foldl max x

/-- Dict-shaped contradiction ("tension") record as stored and passed around by the
backend (`contradictions` table columns plus the transient `distance` added by
vector search).  `Option` fields model absent dict keys / SQL NULLs; every read
site below applies that site's own Python default. `refusal_count` is the
per-tension prior-refusal counter named by the spec's repeated-refusal rule. -/
structure Contra where
  id : Nat := 0
  kernel_id : String := ""
  pole_a : Option String := none
  pole_b : Option String := none
  collapse_direction : Option String := none
  scar_valence : Option ℚ := none
  refusal : Option Bool := none
  life_phase : Option String := none
  life_phase_weight : Option ℚ := none
  mask_inner : Option String := none
  mask_outer : Option String := none
  summary : Option String := none
  event : Option String := none
  embedding : Option (List ℚ) := none
  distance : Option ℚ := none
  refusal_count : Option Nat := none
deriving DecidableEq, Inhabited

/-- Chunk record from the spec data model (`{id, text, source_label, tags[],
life_phase?, embedding[F]}`); the refusal gate only inspects the chunk list's
emptiness. -/
structure Chunk where
  id : Nat := 0
  text : String := ""
  source_label : String := ""
  tags : List String := []
  life_phase : Option String := none
  embedding : Option (List ℚ) := none
deriving DecidableEq

namespace Chunker

/-- Loop of `Chunker.chunk_text` (src/modules/parser.py lines 149-175): starting at
word index 0, repeatedly emit `" ".join(words[i:i+chunk_size])` and advance `i` by
`chunk_size - overlap`, while `i < len(words)`.  Expressed on the suffix
`words.drop i`.  When `overlap >= chunk_size` the source's index never advances
past the word list (see `chunkIndex` and the C7 theorem), so the loop never
terminates; this total model returns `[]` in that case purely so that the
recursion is well founded — that branch is outside the source's terminating
behaviour and is never relied on by a theorem. -/
def chunkLoop (chunk_size overlap : Nat) (words : List String) : List String :=
  if h : words = [] ∨ chunk_size ≤ overlap then []
  else
    sepJoin (words.take chunk_size) ::
      chunkLoop chunk_size overlap (words.drop (chunk_size - overlap))
termination_by words.length
decreasing_by
  push_neg at h
  obtain ⟨h1, h2⟩ := h
  have hpos : 0 < words.length := List.length_pos.mpr h1
  simp only [List.length_drop]
  omega

/-- `Chunker.chunk_text`: split the text on whitespace and emit the space-joined
overlapping word windows. -/
def chunk_text (chunk_size overlap : Nat) (text : String) : List String :=
  chunkLoop chunk_size overlap (pySplit text)

/-- Value of the index variable `i` of the `while` loop in `chunk_text` after `n`
iterations of the loop body: `i` starts at 0 and each iteration executes
`i += self.chunk_size - self.overlap` in Python integer arithmetic. -/
def chunkIndex (chunk_size overlap : Nat) : Nat → Int
  | 0 => 0
  | n + 1 => chunkIndex chunk_size overlap n + ((chunk_size : Int) - (overlap : Int))

end Chunker

/-- Specification-side definition (spec section 8): the original text with its
whitespace normalized, i.e. its words separated by single spaces. -/
def normalize_whitespace (text : String) : String :=
  sepJoin (pySplit text)

theorem sepJoin_cons (w : String) (ws : List String) (h : ws ≠ []) :
    sepJoin (w :: ws) = w ++ " " ++ sepJoin ws := by
  cases ws with
  | nil => exact absurd rfl h
  | cons a l => rfl

theorem sepJoin_append (l1 l2 : List String) (h1 : l1 ≠ []) (h2 : l2 ≠ []) :
    sepJoin (l1 ++ l2) = sepJoin l1 ++ " " ++ sepJoin l2 := by
  induction l1 with
  | nil => exact absurd rfl h1
  | cons a l ih =>
    cases l with
    | nil =>
      simp only [List.singleton_append]
      rw [sepJoin_cons a l2 h2]
      rfl
    | cons b m =>
      have hne : (b :: m : List String) ≠ [] := by simp
      have hne2 : (b :: m ++ l2 : List String) ≠ [] := by simp
      rw [List.cons_append, sepJoin_cons a _ hne2, ih hne, sepJoin_cons a _ hne]
      simp [String.append_assoc]

theorem chunkLoop_ne_nil (chunk_size overlap : Nat) (words : List String)
    (hw : words ≠ []) (ho : overlap < chunk_size) :
    Chunker.chunkLoop chunk_size overlap words ≠ [] := by
  rw [Chunker.chunkLoop]
  have : ¬(words = [] ∨ chunk_size ≤ overlap) := by
    push_neg
    exact ⟨hw, ho⟩
  rw [dif_neg this]
  simp

theorem chunkLoop_join (chunk_size : Nat) (hcs : 0 < chunk_size) :
    ∀ (n : Nat) (words : List String), words.length ≤ n →
      sepJoin (Chunker.chunkLoop chunk_size 0 words) = sepJoin words := by
  intro n
  induction n with
  | zero =>
    intro words h
    have hw : words = [] := List.eq_nil_of_length_eq_zero (Nat.le_zero.mp h)
    rw [Chunker.chunkLoop, dif_pos (Or.inl hw), hw]
  | succ n ih =>
    intro words hlen
    by_cases hw : words = []
    · rw [Chunker.chunkLoop, dif_pos (Or.inl hw), hw]
    · have hguard : ¬(words = [] ∨ chunk_size ≤ 0) := by
        push_neg
        exact ⟨hw, hcs⟩
      rw [Chunker.chunkLoop, dif_neg hguard]
      simp only [Nat.sub_zero]
      by_cases hd : words.drop chunk_size = []
      · have hrest : Chunker.chunkLoop chunk_size 0 (words.drop chunk_size) = [] := by
          rw [hd, Chunker.chunkLoop, dif_pos (Or.inl rfl)]
        have hlenle : words.length ≤ chunk_size := by
          have := congrArg List.length hd
          simp only [List.length_drop, List.length_nil] at this
          omega
        rw [hrest, List.take_of_length_le hlenle]
        rfl
      · have hpos : 0 < words.length := List.length_pos.mpr hw
        have hrest : Chunker.chunkLoop chunk_size 0 (words.drop chunk_size) ≠ [] :=
          chunkLoop_ne_nil chunk_size 0 (words.drop chunk_size) hd hcs
        have hdroplen : (words.drop chunk_size).length ≤ n := by
          simp only [List.length_drop]
          omega
        have htake : words.take chunk_size ≠ [] := by
          simp only [ne_eq, List.take_eq_nil_iff]
          push_neg
          exact ⟨by omega, hw⟩
        rw [sepJoin_cons _ _ hrest, ih (words.drop chunk_size) hdroplen,
          ← sepJoin_append (words.take chunk_size) (words.drop chunk_size) htake hd,
          List.take_append_drop]

/-- C6: for every text, when overlap = 0 the segmenter's output chunks, joined by
single spaces in order, equal the original text with whitespace normalized (words
separated by single spaces).  Stated under the spec's own configuration
precondition of a positive window size (a zero window size is invalid
configuration; the source loop does not terminate on it). -/
theorem chunk_text_overlap_zero_reconstructs (chunk_size : Nat) (text : String)
    (h : 0 < chunk_size) :
    sepJoin (Chunker.chunk_text chunk_size 0 text) = normalize_whitespace text :=
  chunkLoop_join chunk_size h (pySplit text).length (pySplit text) le_rfl

/-- Witness for C6 at a concrete input. -/
theorem chunk_text_overlap_zero_reconstructs_witness :
    0 < 2 ∧
      sepJoin (Chunker.chunk_text 2 0 ("alpha  beta gamma")) =
        normalize_whitespace ("alpha  beta gamma") :=
  ⟨by decide, chunk_text_overlap_zero_reconstructs 2 ("alpha  beta gamma") (by decide)⟩

/-- C7: `overlap < windowSize` is claimed to be enforced with a `ConfigError`; the
source defines no such error and accepts the configuration.  This theorem records
the actual behaviour: whenever `chunk_size <= overlap` the loop index of
`chunk_text` never increases, and in particular for `Chunker(chunk_size=2,
overlap=2)` on the three-word text `"a b c"` the index is 0 forever, so the
`while i < len(words)` guard holds at every iteration and the call never
terminates (no error is ever signalled). -/
theorem chunker_accepts_bad_overlap_and_loops :
    (∀ (chunk_size overlap n : Nat), chunk_size ≤ overlap →
        Chunker.chunkIndex chunk_size overlap n ≤ 0)
    ∧ (∀ n : Nat, Chunker.chunkIndex 2 2 n = 0)
    ∧ (pySplit ("a b c")).length = 3
    ∧ (∀ n : Nat, Chunker.chunkIndex 2 2 n < ((pySplit ("a b c")).length : Int)) := by
  have hgen : ∀ (chunk_size overlap n : Nat), chunk_size ≤ overlap →
      Chunker.chunkIndex chunk_size overlap n ≤ 0 := by
    intro cs ov n hle
    induction n with
    | zero => simp [Chunker.chunkIndex]
    | succ n ih =>
      rw [Chunker.chunkIndex]
      omega
  have h22 : ∀ n : Nat, Chunker.chunkIndex 2 2 n = 0 := by
    intro n
    induction n with
    | zero => rfl
    | succ n ih =>
      rw [Chunker.chunkIndex, ih]
      rfl
  have hlen : (pySplit ("a b c")).length = 3 := by decide
  refine ⟨hgen, h22, hlen, ?_⟩
  intro n
  rw [h22 n, hlen]
  decide

/-- Witness for C7's universally quantified conjunct at a concrete input. -/
theorem chunker_accepts_bad_overlap_and_loops_witness :
    2 ≤ 2 ∧ Chunker.chunkIndex 2 2 5 ≤ 0 :=
  ⟨by decide, chunker_accepts_bad_overlap_and_loops.1 2 2 5 (by decide)⟩

namespace CLEARGate

/-- Sort key used in `CLEARGate.evaluate`: `x.get('scar_valence', 0)`. -/
def scarKey (c : Contra) : ℚ := c.scar_valence.getD 0

/-- Python `sorted(refusal_contras, key=lambda x: x.get('scar_valence', 0),
reverse=True)`: a stable descending sort by scar valence (stable merge sort that
keeps the earlier element on ties). -/
def sortByScarDesc (cs : List Contra) : List Contra :=
  cs.mergeSort (fun a b => decide (scarKey b ≤ scarKey a))

/-- Per-contradiction score of the loop body of `CLEARGate._calculate_refusal_score`:
base scar valence (default 0.5), plus 0.2 for each pole label occurring as a
substring of the lowercased query, plus 0.1 when the life phase is late with
weight above 0.7, capped at 1. -/
def refusalScoreTerm (query : String) (c : Contra) : ℚ :=
  let scar := c.scar_valence.getD (1 / 2)
  let pole_a := (c.pole_a.getD ("")).toLower
  let pole_b := (c.pole_b.getD ("")).toLower
  let query_lower := query.toLower
  let pole_match : ℚ :=
    (if pyIn pole_a query_lower then 1 / 5 else 0) +
      (if pyIn pole_b query_lower then 1 / 5 else 0)
  let phase := c.life_phase.getD ("")
  let phase_weight := c.life_phase_weight.getD (1 / 2)
  let phase_boost : ℚ := if phase = "late" ∧ phase_weight > 7 / 10 then 1 / 10 else 0
  min 1 (scar + pole_match + phase_boost)

/-- `CLEARGate._calculate_refusal_score`: 0 for no refusal contradictions, else the
maximum of the per-contradiction scores. -/
def _calculate_refusal_score (query : String) (refusal_contras : List Contra) : ℚ :=
  if refusal_contras.isEmpty then 0
  else listMax (refusal_contras.map (refusalScoreTerm query))

/-- Structured refusal reason dict built by `CLEARGate._build_refusal_reason`. -/
structure RefusalReason where
  should_refuse : Bool
  message : String
  poles : List String
  scar_valence : ℚ
  life_phase : String
  event : String
deriving DecidableEq

/-- `CLEARGate._build_refusal_reason` on the triggering contradiction. -/
def _build_refusal_reason (c : Contra) : RefusalReason :=
  let pole_a := c.pole_a.getD ("unknown")
  let pole_b := c.pole_b.getD ("unknown")
  let summary := c.summary.getD ("")
  let message :=
    "I find I cannot engage authentically with this question. "
      ++ "It touches on a tension between " ++ pole_a ++ " and " ++ pole_b
      ++ " that remains unresolved for me."
  { should_refuse := true
    message := if summary = "" then message else message ++ " " ++ summary
    poles := [pole_a, pole_b]
    scar_valence := c.scar_valence.getD 0
    life_phase := c.life_phase.getD ("unknown")
    event := c.event.getD ("") }

/-- `CLEARGate.evaluate` (src/modules/clear_gate.py lines 30-76): keep only the
contradictions with a truthy `refusal` flag; if none remain, continue; otherwise
score the top-3 highest-scar refusal contradictions and refuse exactly when the
score reaches the strictness threshold. -/
def evaluate (strictness : ℚ) (query : String) (contradictions : List Contra) :
    Bool × Option RefusalReason :=
  let refusal_contras := contradictions.filter (fun c => c.refusal.getD false)
  if refusal_contras.isEmpty then (false, none)
  else
    let top_refusal := (sortByScarDesc refusal_contras).take 3
    let refusal_score := _calculate_refusal_score query top_refusal
    if strictness ≤ refusal_score then
      (true, some (_build_refusal_reason (top_refusal.headI)))
    else (false, none)

end CLEARGate

/-- Specification-side refusal score, following C8's wording: the maximum, over the
top-3 highest-scar refusal tensions, of min(1, scar_valence + 0.2 per pole label
appearing as a substring of the lowercased query + 0.1 for a heavily weighted late
life phase); the maximum over no tensions is read as 0. -/
def spec_refusal_score (query : String) (contradictions : List Contra) : ℚ :=
  (((CLEARGate.sortByScarDesc
        (contradictions.filter (fun c => c.refusal.getD false))).take 3).map
      (CLEARGate.refusalScoreTerm query)).foldr max 0

theorem foldl_max_init (l : List ℚ) : ∀ a b : ℚ, l.foldl max (max a b) = max a (l.foldl max b) := by
  induction l with
  | nil => intro a b; rfl
  | cons c cs ih =>
    intro a b
    show cs.foldl max (max (max a b) c) = max a (cs.foldl max (max b c))
    rw [max_assoc, ih a (max b c)]

theorem foldr_max_zero : ∀ (l : List ℚ) (x : ℚ),
    (x :: l).foldr max 0 = max (listMax (x :: l)) 0 := by
  intro l
  induction l with
  | nil => intro x; rfl
  | cons y ys ih =>
    intro x
    have hfold : (x :: y :: ys).foldr max 0 = max x ((y :: ys).foldr max 0) := rfl
    have hlm : listMax (x :: y :: ys) = max x (listMax (y :: ys)) := by
      show (y :: ys).foldl max x = max x (ys.foldl max y)
      show ys.foldl max (max x y) = max x (ys.foldl max y)
      exact foldl_max_init ys x y
    rw [hfold, ih y, hlm, max_assoc]

theorem evaluate_fst_eq (strictness : ℚ) (query : String) (cs : List Contra) :
    (CLEARGate.evaluate strictness query cs).1 =
      (!(cs.filter (fun c => c.refusal.getD false)).isEmpty &&
        decide (strictness ≤ CLEARGate._calculate_refusal_score query
          ((CLEARGate.sortByScarDesc
              (cs.filter (fun c => c.refusal.getD false))).take 3))) := by
  simp only [CLEARGate.evaluate]
  by_cases hempty : (cs.filter (fun c => c.refusal.getD false)).isEmpty
  · simp [hempty]
  · by_cases hcond : strictness ≤ CLEARGate._calculate_refusal_score query
        ((CLEARGate.sortByScarDesc (cs.filter (fun c => c.refusal.getD false))).take 3)
    · simp [hempty, hcond]
    · simp [hempty, hcond]

/-- C8: the strictness-scored refusal heuristic (`CLEARGate.evaluate`) refuses a
query exactly when its refusal score — the maximum over the top-3 highest-scar
refusal tensions of min(1, scar_valence + 0.2 per pole label contained in the
lowercased query + 0.1 late-phase boost) — reaches the configured strictness.
Stated for positive strictness values (the configured range; at strictness 0 the
source still continues on a pack with no refusal tensions). -/
theorem clear_gate_refuses_iff_score_reaches_strictness
    (strictness : ℚ) (query : String) (cs : List Contra) (hs : 0 < strictness) :
    (CLEARGate.evaluate strictness query cs).1 = true ↔
      strictness ≤ spec_refusal_score query cs := by
  rw [evaluate_fst_eq]
  by_cases hempty : (cs.filter (fun c => c.refusal.getD false)).isEmpty
  · have hnil : cs.filter (fun c => c.refusal.getD false) = [] :=
      List.isEmpty_iff.mp hempty
    rw [spec_refusal_score, hnil]
    simp only [CLEARGate.sortByScarDesc, List.mergeSort_nil, List.take_nil,
      List.map_nil, List.foldr_nil, List.isEmpty_nil, Bool.not_true, Bool.false_and]
    constructor
    · intro h
      exact absurd h (by simp)
    · intro h
      exact absurd h (not_le.mpr hs)
  · have hne : cs.filter (fun c => c.refusal.getD false) ≠ [] := by
      intro hnil
      exact hempty (by simp [hnil])
    have hsortne : CLEARGate.sortByScarDesc (cs.filter (fun c => c.refusal.getD false)) ≠ [] := by
      intro hnil
      have := congrArg List.length hnil
      rw [CLEARGate.sortByScarDesc, List.length_mergeSort] at this
      exact hne (List.eq_nil_of_length_eq_zero this)
    have htopne : (CLEARGate.sortByScarDesc
        (cs.filter (fun c => c.refusal.getD false))).take 3 ≠ [] := by
      simp only [ne_eq, List.take_eq_nil_iff]
      push_neg
      exact ⟨by omega, hsortne⟩
    obtain ⟨m, ms, hm⟩ : ∃ m ms,
        ((CLEARGate.sortByScarDesc
            (cs.filter (fun c => c.refusal.getD false))).take 3).map
          (CLEARGate.refusalScoreTerm query) = m :: ms := by
      cases hmap : ((CLEARGate.sortByScarDesc
          (cs.filter (fun c => c.refusal.getD false))).take 3).map
            (CLEARGate.refusalScoreTerm query) with
      | nil => exact absurd (List.map_eq_nil_iff.mp hmap) htopne
      | cons m ms => exact ⟨m, ms, rfl⟩
    have hscore : CLEARGate._calculate_refusal_score query
        ((CLEARGate.sortByScarDesc
            (cs.filter (fun c => c.refusal.getD false))).take 3) = listMax (m :: ms) := by
      rw [CLEARGate._calculate_refusal_score, if_neg (by simp [htopne]), hm]
    have hspec : spec_refusal_score query cs = max (listMax (m :: ms)) 0 := by
      rw [spec_refusal_score, hm, foldr_max_zero]
    rw [hscore, hspec]
    simp only [hempty, Bool.not_false, Bool.true_and, decide_eq_true_eq]
    constructor
    · intro hle
      exact le_max_of_le_left hle
    · intro hle
      rcases le_max_iff.mp hle with h | h
      · exact h
      · linarith

/-- Witness for C8 at a concrete strictness, query and contradiction list. -/
theorem clear_gate_refuses_iff_score_reaches_strictness_witness :
    (0 : ℚ) < 8 / 10 ∧
      ((CLEARGate.evaluate (8 / 10) ("should I follow duty or desire")
          [{ pole_a := some ("duty"), pole_b := some ("desire"),
             scar_valence := some (9 / 10), refusal := some true }]).1 = true ↔
        (8 : ℚ) / 10 ≤ spec_refusal_score ("should I follow duty or desire")
          [{ pole_a := some ("duty"), pole_b := some ("desire"),
             scar_valence := some (9 / 10), refusal := some true }]) :=
  ⟨by norm_num,
    clear_gate_refuses_iff_score_reaches_strictness (8 / 10)
      ("should I follow duty or desire")
      [{ pole_a := some ("duty"), pole_b := some ("desire"),
         scar_valence := some (9 / 10), refusal := some true }] (by norm_num)⟩

/-- C10: the implemented gate `CLEARGate.evaluate` never refuses unless some
retrieved contradiction carries a truthy `refusal` flag: on any list with no
refusal-flagged contradiction (including the empty list) it returns
`(False, None)`, and any refusal outcome exhibits a refusal-flagged
contradiction in the input. -/
theorem clear_gate_never_refuses_without_refusal_flag :
    (∀ (strictness : ℚ) (query : String) (cs : List Contra),
        (∀ c ∈ cs, c.refusal.getD false = false) →
          CLEARGate.evaluate strictness query cs = (false, none))
    ∧ (∀ (strictness : ℚ) (query : String) (cs : List Contra),
        (CLEARGate.evaluate strictness query cs).1 = true →
          ∃ c ∈ cs, c.refusal.getD false = true) := by
  constructor
  · intro strictness query cs hall
    have hnil : cs.filter (fun c => c.refusal.getD false) = [] := by
      rw [List.filter_eq_nil_iff]
      intro c hc
      simp [hall c hc]
    rw [CLEARGate.evaluate]
    simp [hnil]
  · intro strictness query cs htrue
    by_cases hempty : (cs.filter (fun c => c.refusal.getD false)).isEmpty
    · rw [evaluate_fst_eq] at htrue
      simp [hempty] at htrue
    · have hne : cs.filter (fun c => c.refusal.getD false) ≠ [] := by
        intro hnil
        exact hempty (by simp [hnil])
      obtain ⟨c, hc⟩ := List.exists_mem_of_ne_nil _ hne
      rw [List.mem_filter] at hc
      exact ⟨c, hc.1, hc.2⟩

/-- Witness for C10 at a concrete input with no refusal-flagged contradiction. -/
theorem clear_gate_never_refuses_without_refusal_flag_witness :
    (∀ c ∈ [({ refusal := some false, scar_valence := some 1 } : Contra)],
        c.refusal.getD false = false) ∧
      CLEARGate.evaluate 1 ("any query")
          [{ refusal := some false, scar_valence := some 1 }] = (false, none) :=
  ⟨by decide,
    clear_gate_never_refuses_without_refusal_flag.1 1 ("any query")
      [{ refusal := some false, scar_valence := some 1 }] (by decide)⟩

/-- Retrieval weight configuration (the `weights` dict of `HybridRetriever`). -/
structure Weights where
  pair : ℚ
  single : ℚ
  cluster : ℚ
  scar_phase : ℚ
  bias : ℚ
  refusal : ℚ
  mask : ℚ
deriving DecidableEq

/-- Default weights from `HybridRetriever.__init__` (src/modules/retrieval.py
lines 29-38). -/
def defaultWeights : Weights :=
  { pair := 32 / 100, single := 12 / 100, cluster := 16 / 100,
    scar_phase := 14 / 100, bias := 10 / 100, refusal := 10 / 100, mask := 6 / 100 }

namespace SupabaseStore

/-- Row produced by the SELECT of `SupabaseStore.search_contradictions`
(src/modules/store.py lines 241-258): only the columns id, pole_a, pole_b,
collapse_direction, scar_valence, life_phase, summary plus the computed
`distance` are selected; every other field of the row dict is absent. -/
def rowOf (c : Contra) (d : ℚ) : Contra :=
  { id := c.id, pole_a := c.pole_a, pole_b := c.pole_b,
    collapse_direction := c.collapse_direction, scar_valence := c.scar_valence,
    life_phase := c.life_phase, summary := c.summary, distance := some d }

/-- ORDER BY `embedding <-> query` ascending (a stable sort by the computed
distance). -/
def sortByDistanceAsc (rows : List Contra) : List Contra :=
  rows.mergeSort (fun a b => decide (a.distance.getD 1 ≤ b.distance.getD 1))

/-- `SupabaseStore.search_contradictions`: rows of the persona's contradictions
whose `embedding IS NOT NULL`, each carrying the vector distance to the query
embedding (the pgvector metric is passed in as the abstract function `dist`),
ordered by ascending distance and limited to `limit` rows. -/
def search_contradictions (dist : List ℚ → List ℚ → ℚ) (db : List Contra)
    (kernel_id : String) (query_embedding : List ℚ) (limit : Nat) : List Contra :=
  let rows := (db.filter (fun c => c.kernel_id == kernel_id && c.embedding.isSome)).map
    (fun c => rowOf c (dist (c.embedding.getD []) query_embedding))
  (sortByDistanceAsc rows).take limit

end SupabaseStore

namespace HybridRetriever

/-- Vector similarity computed in `_score_contradictions`:
`1.0 / (1.0 + c.get('distance', 1.0))`. -/
def vector_score (c : Contra) : ℚ := 1 / (1 + c.distance.getD 1)

/-- Hybrid score of `HybridRetriever._score_contradictions`
(src/modules/retrieval.py lines 101-150). -/
def hybrid_score (w : Weights) (c : Contra) : ℚ :=
  w.pair * vector_score c
    + w.scar_phase * (c.scar_valence.getD (1 / 2)) * (c.life_phase_weight.getD (1 / 2))
    + w.refusal * (if c.refusal.getD false then 12 / 10 else 1)
    + w.bias * (if c.collapse_direction.getD ("") = "balanced" then 11 / 10 else 1)

/-- Contradiction dict augmented with the keys `_score_contradictions` adds. -/
structure Scored where
  contra : Contra
  hybrid_score : ℚ
  vector_score : ℚ
  scar_score : ℚ
deriving DecidableEq

/-- `HybridRetriever._score_contradictions`: annotate every retrieved
contradiction with its hybrid, vector and scar scores. -/
def _score_contradictions (w : Weights) (cs : List Contra) : List Scored :=
  cs.map (fun c =>
    { contra := c, hybrid_score := HybridRetriever.hybrid_score w c,
      vector_score := HybridRetriever.vector_score c,
      scar_score := c.scar_valence.getD (1 / 2) })

/-- Step 4 of `HybridRetriever.retrieve`: stable sort by descending hybrid score. -/
def sortByHybridDesc (scored : List Scored) : List Scored :=
  scored.mergeSort (fun a b => decide (b.hybrid_score ≤ a.hybrid_score))

/-- Contradiction half of `HybridRetriever.retrieve` (steps 1, 3 and 4): vector
search with limit `top_k * 2`, hybrid re-scoring, and selection of the top-k by
descending hybrid score. -/
def retrieve_contradictions (dist : List ℚ → List ℚ → ℚ) (w : Weights)
    (db : List Contra) (kernel_id : String) (query_embedding : List ℚ)
    (top_k : Nat) : List Scored :=
  let contradictions :=
    SupabaseStore.search_contradictions dist db kernel_id query_embedding (top_k * 2)
  let scored := _score_contradictions w contradictions
  (sortByHybridDesc scored).take top_k

end HybridRetriever

/-- Specification-side hybrid score formula (spec section 4.4), in terms of an
externally supplied vector similarity and the tension's fields. -/
def spec_hybrid_score (w : Weights) (vectorSimilarity scar_valence life_phase_weight : ℚ)
    (refusal balanced : Bool) : ℚ :=
  w.pair * vectorSimilarity
    + w.scar_phase * scar_valence * life_phase_weight
    + w.refusal * (if refusal then 12 / 10 else 1)
    + w.bias * (if balanced then 11 / 10 else 1)

/-- C5: the implemented hybrid score equals the spec formula
`w_pair*vectorSimilarity + w_scarPhase*scar*phaseWeight + w_refusal*(1.2 if
refusal else 1.0) + w_bias*(1.1 if balanced else 1.0)` with default weights
pair=0.32, scarPhase=0.14, refusal=0.10, bias=0.10; consequently two tensions
identical except for vector similarity 0.9 versus 0.1 rank strictly in that
order under the default weights (ranking is by descending hybrid score). -/
theorem hybrid_score_formula_and_ordering :
    (defaultWeights.pair = 32 / 100 ∧ defaultWeights.scar_phase = 14 / 100 ∧
      defaultWeights.refusal = 10 / 100 ∧ defaultWeights.bias = 10 / 100)
    ∧ (∀ (w : Weights) (c : Contra),
        HybridRetriever.hybrid_score w c =
          spec_hybrid_score w (HybridRetriever.vector_score c)
            (c.scar_valence.getD (1 / 2)) (c.life_phase_weight.getD (1 / 2))
            (c.refusal.getD false)
            (decide (c.collapse_direction.getD ("") = "balanced")))
    ∧ (∀ c1 c2 : Contra,
        c1.scar_valence = c2.scar_valence →
        c1.life_phase_weight = c2.life_phase_weight →
        c1.refusal = c2.refusal →
        c1.collapse_direction = c2.collapse_direction →
        HybridRetriever.vector_score c1 = 9 / 10 →
        HybridRetriever.vector_score c2 = 1 / 10 →
        HybridRetriever.hybrid_score defaultWeights c2 <
          HybridRetriever.hybrid_score defaultWeights c1) := by
  refine ⟨⟨rfl, rfl, rfl, rfl⟩, ?_, ?_⟩
  · intro w c
    simp [HybridRetriever.hybrid_score, spec_hybrid_score]
  · intro c1 c2 hscar hphase hrefusal hdir hv1 hv2
    simp only [HybridRetriever.hybrid_score, hscar, hphase, hrefusal, hdir, hv1, hv2]
    have hw : defaultWeights.pair = 32 / 100 := rfl
    rw [hw]
    have : (32 : ℚ) / 100 * (1 / 10) < 32 / 100 * (9 / 10) := by norm_num
    linarith

/-- Witness for C5's ordering conjunct at two concrete tensions differing only in
their stored vector distance. -/
theorem hybrid_score_formula_and_ordering_witness :
    HybridRetriever.vector_score { distance := some (1 / 9) } = 9 / 10 ∧
      HybridRetriever.vector_score { distance := some 9 } = 1 / 10 ∧
      HybridRetriever.hybrid_score defaultWeights { distance := some 9 } <
        HybridRetriever.hybrid_score defaultWeights { distance := some (1 / 9) } :=
  ⟨by norm_num [HybridRetriever.vector_score],
    by norm_num [HybridRetriever.vector_score],
    hybrid_score_formula_and_ordering.2.2 { distance := some (1 / 9) }
      { distance := some 9 } rfl rfl rfl rfl
      (by norm_num [HybridRetriever.vector_score])
      (by norm_num [HybridRetriever.vector_score])⟩

/-- C9: every element of the ranked retrieval results originates from a stored
tension whose embedding is present: its row is the projection of such a tension
with the vector distance computed from that embedding, and its score is the
hybrid score of that row.  A tension with no embedding therefore never reaches
scoring (it is filtered out by `embedding IS NOT NULL` in
`SupabaseStore.search_contradictions`) and is never scored with a default
similarity; the pipeline is a total function, so absence is not a request
failure either. -/
theorem retrieval_excludes_missing_embeddings
    (dist : List ℚ → List ℚ → ℚ) (w : Weights) (db : List Contra)
    (kernel_id : String) (query_embedding : List ℚ) (top_k : Nat)
    (s : HybridRetriever.Scored)
    (hs : s ∈ HybridRetriever.retrieve_contradictions dist w db kernel_id
        query_embedding top_k) :
    ∃ c ∈ db, c.kernel_id = kernel_id ∧ c.embedding ≠ none ∧
      s.contra = SupabaseStore.rowOf c (dist (c.embedding.getD []) query_embedding) ∧
      s.hybrid_score = HybridRetriever.hybrid_score w s.contra := by
  simp only [HybridRetriever.retrieve_contradictions, HybridRetriever.sortByHybridDesc]
    at hs
  have hs2 := (List.mergeSort_perm _ _).mem_iff.mp (List.mem_of_mem_take hs)
  rw [HybridRetriever._score_contradictions, List.mem_map] at hs2
  obtain ⟨row, hrow, hsrow⟩ := hs2
  simp only [SupabaseStore.search_contradictions, SupabaseStore.sortByDistanceAsc]
    at hrow
  have hrow2 := (List.mergeSort_perm _ _).mem_iff.mp (List.mem_of_mem_take hrow)
  rw [List.mem_map] at hrow2
  obtain ⟨c, hcfilter, hcrow⟩ := hrow2
  rw [List.mem_filter, Bool.and_eq_true] at hcfilter
  have hcdb := hcfilter.1
  have hkid := hcfilter.2.1
  have hsome := hcfilter.2.2
  refine ⟨c, hcdb, by simpa using hkid,
    by simpa [Option.isSome_iff_ne_none] using hsome, ?_, ?_⟩
  · rw [← hsrow, ← hcrow]
  · rw [← hsrow]

/-- Concrete input for the C9 witness: a stored tension with an embedding. -/
def c9_embedded : Contra := { id := 1, kernel_id := "k", embedding := some [1] }

/-- Concrete vector metric for the C9 witness. -/
def c9_dist : List ℚ → List ℚ → ℚ := fun _ _ => 0

/-- Concrete ranked result for the C9 witness: the single scored row the pipeline
produces from `c9_embedded`. -/
def c9_scored : HybridRetriever.Scored :=
  { contra := SupabaseStore.rowOf c9_embedded
      (c9_dist (c9_embedded.embedding.getD []) []),
    hybrid_score := HybridRetriever.hybrid_score defaultWeights
      (SupabaseStore.rowOf c9_embedded (c9_dist (c9_embedded.embedding.getD []) [])),
    vector_score := HybridRetriever.vector_score
      (SupabaseStore.rowOf c9_embedded (c9_dist (c9_embedded.embedding.getD []) [])),
    scar_score := (SupabaseStore.rowOf c9_embedded
        (c9_dist (c9_embedded.embedding.getD []) [])).scar_valence.getD (1 / 2) }

theorem c9_retrieve_eval :
    HybridRetriever.retrieve_contradictions c9_dist defaultWeights [c9_embedded]
      ("k") [] 1 = [c9_scored] := by
  simp only [HybridRetriever.retrieve_contradictions,
    SupabaseStore.search_contradictions, HybridRetriever._score_contradictions,
    HybridRetriever.sortByHybridDesc, SupabaseStore.sortByDistanceAsc]
  rw [show List.filter (fun c => c.kernel_id == "k" && c.embedding.isSome)
      [c9_embedded] = [c9_embedded] from rfl]
  rw [List.map_singleton, List.mergeSort_singleton,
    show List.take (1 * 2)
      [SupabaseStore.rowOf c9_embedded (c9_dist (c9_embedded.embedding.getD []) [])] =
      [SupabaseStore.rowOf c9_embedded (c9_dist (c9_embedded.embedding.getD []) [])]
      from rfl,
    List.map_singleton, List.mergeSort_singleton]
  rfl

/-- Witness for C9 at the concrete pipeline run above. -/
theorem retrieval_excludes_missing_embeddings_witness :
    c9_scored ∈ HybridRetriever.retrieve_contradictions c9_dist defaultWeights
        [c9_embedded] ("k") [] 1 ∧
      ∃ c ∈ [c9_embedded], c.kernel_id = "k" ∧ c.embedding ≠ none ∧
        c9_scored.contra = SupabaseStore.rowOf c (c9_dist (c.embedding.getD []) []) ∧
        c9_scored.hybrid_score =
          HybridRetriever.hybrid_score defaultWeights c9_scored.contra :=
  ⟨by rw [c9_retrieve_eval]; exact List.mem_singleton.mpr rfl,
    retrieval_excludes_missing_embeddings c9_dist defaultWeights [c9_embedded]
      ("k") [] 1 c9_scored
      (by rw [c9_retrieve_eval]; exact List.mem_singleton.mpr rfl)⟩

/-- Step of a Python dict built by in-order accumulation: the state is the
insertion-ordered key list together with a total lookup function (absent keys map
to the `defaultdict` default).  Updating appends the key on first occurrence and
rewrites the looked-up value. -/
def dictStep {α κ δ : Type} [DecidableEq κ] (key : α → κ) (upd : δ → α → δ)
    (s : List κ × (κ → δ)) (a : α) : List κ × (κ → δ) :=
  (if key a ∈ s.1 then s.1 else s.1 ++ [key a],
    fun k => if k = key a then upd (s.2 k) a else s.2 k)

/-- Python `defaultdict` accumulation over a list, keyed by `key`, updating with
`upd` from default `d0`. -/
def dictFold {α κ δ : Type} [DecidableEq κ] (key : α → κ) (upd : δ → α → δ)
    (d0 : δ) (l : List α) : List κ × (κ → δ) :=
  l.foldl (dictStep key upd) ([], fun _ => d0)

theorem dictStep_foldl_data {α κ δ : Type} [DecidableEq κ] (key : α → κ)
    (upd : δ → α → δ) :
    ∀ (l : List α) (s : List κ × (κ → δ)) (k : κ),
      ((l.foldl (dictStep key upd) s).2) k =
        (l.filter (fun a => decide (key a = k))).foldl upd (s.2 k) := by
  intro l
  induction l with
  | nil => intro s k; rfl
  | cons a l ih =>
    intro s k
    rw [List.foldl_cons, ih (dictStep key upd s a) k, List.filter_cons]
    by_cases h : key a = k
    · simp [dictStep, h]
    · simp [dictStep, h, Ne.symm h]

theorem dictFold_data {α κ δ : Type} [DecidableEq κ] (key : α → κ)
    (upd : δ → α → δ) (d0 : δ) (l : List α) (k : κ) :
    (dictFold key upd d0 l).2 k =
      (l.filter (fun a => decide (key a = k))).foldl upd d0 :=
  dictStep_foldl_data key upd l ([], fun _ => d0) k

theorem dictStep_foldl_keys {α κ δ : Type} [DecidableEq κ] (key : α → κ)
    (upd : δ → α → δ) :
    ∀ (l : List α) (s : List κ × (κ → δ)) (k : κ),
      (k ∈ (l.foldl (dictStep key upd) s).1 ↔ k ∈ s.1 ∨ ∃ a ∈ l, key a = k) := by
  intro l
  induction l with
  | nil => intro s k; simp
  | cons a l ih =>
    intro s k
    rw [List.foldl_cons, ih (dictStep key upd s a) k]
    have hstep : k ∈ (dictStep key upd s a).1 ↔ k ∈ s.1 ∨ key a = k := by
      by_cases h : key a ∈ s.1
      · simp only [dictStep, if_pos h]
        constructor
        · exact Or.inl
        · rintro (hk | hk)
          · exact hk
          · exact hk ▸ h
      · simp only [dictStep, if_neg h, List.mem_append, List.mem_singleton]
        constructor
        · rintro (hk | hk)
          · exact Or.inl hk
          · exact Or.inr hk.symm
        · rintro (hk | hk)
          · exact Or.inl hk
          · exact Or.inr hk.symm
    rw [hstep]
    simp only [List.mem_cons]
    constructor
    · rintro ((hk | hk) | ⟨b, hb, hbk⟩)
      · exact Or.inl hk
      · exact Or.inr ⟨a, Or.inl rfl, hk⟩
      · exact Or.inr ⟨b, Or.inr hb, hbk⟩
    · rintro (hk | ⟨b, (hb | hb), hbk⟩)
      · exact Or.inl (Or.inl hk)
      · exact Or.inl (Or.inr (hb ▸ hbk))
      · exact Or.inr ⟨b, hb, hbk⟩

theorem dictFold_mem_keys {α κ δ : Type} [DecidableEq κ] (key : α → κ)
    (upd : δ → α → δ) (d0 : δ) (l : List α) (k : κ) :
    k ∈ (dictFold key upd d0 l).1 ↔ ∃ a ∈ l, key a = k := by
  rw [dictFold, dictStep_foldl_keys key upd l ([], fun _ => d0) k]
  simp

theorem dictStep_foldl_nodup {α κ δ : Type} [DecidableEq κ] (key : α → κ)
    (upd : δ → α → δ) :
    ∀ (l : List α) (s : List κ × (κ → δ)), s.1.Nodup →
      (l.foldl (dictStep key upd) s).1.Nodup := by
  intro l
  induction l with
  | nil => intro s hs; exact hs
  | cons a l ih =>
    intro s hs
    rw [List.foldl_cons]
    refine ih (dictStep key upd s a) ?_
    by_cases h : key a ∈ s.1
    · simpa [dictStep, h] using hs
    · simp [dictStep, h, List.nodup_append, hs]

theorem dictFold_nodup {α κ δ : Type} [DecidableEq κ] (key : α → κ)
    (upd : δ → α → δ) (d0 : δ) (l : List α) : (dictFold key upd d0 l).1.Nodup :=
  dictStep_foldl_nodup key upd l ([], fun _ => d0) List.nodup_nil

/-- Unordered pole-pair key: `tuple(sorted([a, b]))` for two strings. -/
def sortedPair (a b : String) : String × String :=
  if a ≤ b then (a, b) else (b, a)

/-- Truthiness filter for an optional string field: Python `if value:` keeps only
a present, non-empty string. -/
def truthyOpt (o : Option String) : List String :=
  match o with
  | some s => if s = "" then [] else [s]
  | none => []

/-- Per-pair accumulator dict of `GraphBuilder._aggregate_contradictions`
(src/modules/graph.py lines 84-95). `masks` is a Python `set`, modelled as a
`Finset`. -/
structure GD where
  frequency : Nat := 0
  scar_sum : ℚ := 0
  scar_max : ℚ := 0
  refusal_count : Nat := 0
  toward_a : Nat := 0
  toward_b : Nat := 0
  balanced : Nat := 0
  phases : List String := []
  masks : Finset String := ∅
  summaries : List String := []
deriving DecidableEq

/-- Loop body of `GraphBuilder._aggregate_contradictions` (lines 97-140) for one
contradiction: bump the counters, track the scar sum and maximum, count the
collapse directions, and append the truthy phase, mask and summary values. -/
def addContradiction (g : GD) (c : Contra) : GD :=
  let scar := c.scar_valence.getD 0
  let direction := c.collapse_direction.getD ("")
  { frequency := g.frequency + 1
    scar_sum := g.scar_sum + scar
    scar_max := max g.scar_max scar
    refusal_count := g.refusal_count + (if c.refusal.getD false then 1 else 0)
    toward_a := g.toward_a + (if direction = "toward_a" then 1 else 0)
    toward_b := g.toward_b + (if direction = "toward_b" then 1 else 0)
    balanced := g.balanced + (if direction = "balanced" then 1 else 0)
    phases := g.phases ++ truthyOpt c.life_phase
    masks := g.masks ∪ (truthyOpt c.mask_inner ++ truthyOpt c.mask_outer).toFinset
    summaries := g.summaries ++ truthyOpt c.summary }

/-- Pole validity check of `_aggregate_contradictions`: both stripped poles are
non-empty (`if not pole_a or not pole_b: continue`). -/
def validPoles (c : Contra) : Bool :=
  decide ((c.pole_a.getD ("")).trim ≠ "") && decide ((c.pole_b.getD ("")).trim ≠ "")

/-- Pole-pair key of `_aggregate_contradictions`:
`tuple(sorted([pole_a.strip(), pole_b.strip()]))`. -/
def contraKey (c : Contra) : String × String :=
  sortedPair ((c.pole_a.getD ("")).trim) ((c.pole_b.getD ("")).trim)

namespace GraphBuilder

/-- `GraphBuilder._aggregate_contradictions`: the skipped empty-pole
contradictions (`continue`) are removed up front and the rest accumulate into
the pole-pair dict in input order. -/
def _aggregate_contradictions (cs : List Contra) :
    List (String × String) × (String × String → GD) :=
  dictFold contraKey addContradiction {} (cs.filter validPoles)

/-- Direction bias of an aggregated group, computed identically in
`GraphBuilder._save_edges` (lines 157-163) and `GraphBuilder._build_edges`
(lines 238-243): `(toward_b - toward_a) / total_directed` when any directed
collapse was seen, else 0. -/
def direction_bias (g : GD) : ℚ :=
  if 0 < g.toward_a + g.toward_b then
    ((g.toward_b : ℚ) - (g.toward_a : ℚ)) / ((g.toward_a : ℚ) + (g.toward_b : ℚ))
  else 0

/-- Edge dict emitted by `GraphBuilder._build_edges` for one aggregated pole
pair; `phases` is `list(set(...))` in the source, so it is modelled as the set
of phase values. -/
structure GraphEdge where
  source : String
  target : String
  frequency : Nat
  weight : Nat
  scar : ℚ
  scar_max : ℚ
  refusal : Bool
  direction_bias : ℚ
  phases : Finset String
  masks : Finset String
deriving DecidableEq

/-- Edge construction of `_build_edges` from one aggregated group. -/
def edgeOf (k : String × String) (g : GD) : GraphEdge :=
  { source := k.1, target := k.2, frequency := g.frequency,
    weight := min 10 g.frequency, scar := g.scar_sum / (g.frequency : ℚ),
    scar_max := g.scar_max, refusal := decide (0 < g.refusal_count),
    direction_bias := GraphBuilder.direction_bias g, phases := g.phases.toFinset,
    masks := g.masks }

/-- `GraphBuilder._build_edges`: one edge per aggregated pole pair, in dict
insertion order. -/
def _build_edges (s : List (String × String) × (String × String → GD)) :
    List GraphEdge :=
  s.1.map (fun k => edgeOf k (s.2 k))

/-- Per-pole accumulator dict of `GraphBuilder._build_nodes` (lines 189-194). -/
structure NodeStats where
  total_frequency : Nat := 0
  total_scar : ℚ := 0
  refusal_count : Nat := 0
  connections : Nat := 0
deriving DecidableEq

/-- Inner update of `_build_nodes` for one pole of one aggregated pair. -/
def nsAdd (ns : NodeStats) (g : GD) : NodeStats :=
  { total_frequency := ns.total_frequency + g.frequency,
    total_scar := ns.total_scar + g.scar_sum,
    refusal_count := ns.refusal_count + g.refusal_count,
    connections := ns.connections + 1 }

/-- Inner `for pole in [pole_a, pole_b]` loop of `_build_nodes`: each aggregated
pair contributes to both of its poles, in order. -/
def expandPoles (l : List ((String × String) × GD)) : List (String × GD) :=
  l.flatMap (fun kg => [(kg.1.1, kg.2), (kg.1.2, kg.2)])

/-- Pole-stats dict of `_build_nodes`, accumulated in iteration order over the
aggregated pole pairs. -/
def poleStats (s : List (String × String) × (String × String → GD)) :
    List String × (String → NodeStats) :=
  dictFold Prod.fst (fun ns x => nsAdd ns x.2) {}
    (expandPoles (s.1.map (fun k => (k, s.2 k))))

/-- Node dict emitted by `_build_nodes` for one pole. -/
structure GraphNode where
  id : String
  label : String
  size : Nat
  frequency : Nat
  scar : ℚ
  refusal : Bool
  connections : Nat
deriving DecidableEq

/-- Node construction of `_build_nodes` from one pole's accumulated stats. -/
def nodeOf (p : String) (ns : NodeStats) : GraphNode :=
  { id := p, label := p, size := min 50 (10 + ns.total_frequency * 5),
    frequency := ns.total_frequency, scar := ns.total_scar,
    refusal := decide (0 < ns.refusal_count), connections := ns.connections }

/-- `GraphBuilder._build_nodes`: one node per distinct pole, in first-occurrence
order. -/
def _build_nodes (s : List (String × String) × (String × String → GD)) :
    List GraphNode :=
  (poleStats s).1.map (fun p => nodeOf p ((poleStats s).2 p))

end GraphBuilder

/-- Per-pair accumulator of the duplicated aggregation in `run_build_pipeline`
(src/modules/app.py lines 211-232): plain dict with counters only. -/
structure PGD where
  frequency : Nat := 0
  scar_sum : ℚ := 0
  refusal_count : Nat := 0
  toward_a : Nat := 0
  toward_b : Nat := 0
deriving DecidableEq

/-- Loop body of the `run_build_pipeline` aggregation for one contradiction. -/
def pipelineAdd (g : PGD) (c : Contra) : PGD :=
  { frequency := g.frequency + 1,
    scar_sum := g.scar_sum + c.scar_valence.getD 0,
    refusal_count := g.refusal_count + (if c.refusal.getD false then 1 else 0),
    toward_a := g.toward_a +
      (if c.collapse_direction.getD ("") = "toward_a" then 1 else 0),
    toward_b := g.toward_b +
      (if c.collapse_direction.getD ("") = "toward_b" then 1 else 0) }

/-- Pole-pair key of the `run_build_pipeline` aggregation:
`tuple(sorted([c['pole_a'], c['pole_b']]))` — no stripping, no validity skip. -/
def pipelineKey (c : Contra) : String × String :=
  sortedPair (c.pole_a.getD ("")) (c.pole_b.getD (""))

/-- Pole-pair groups built by `run_build_pipeline` before saving graph edges. -/
def run_build_pipeline_groups (cs : List Contra) :
    List (String × String) × (String × String → PGD) :=
  dictFold pipelineKey pipelineAdd {} cs

/-- Direction bias as emitted by `run_build_pipeline` (src/modules/app.py line
236): `(toward_b - toward_a) / frequency` — it divides by the whole group
frequency, not by the directed count. -/
def pipeline_direction_bias (g : PGD) : ℚ :=
  ((g.toward_b : ℚ) - (g.toward_a : ℚ)) / (g.frequency : ℚ)

/-- Specification-side direction bias (spec section 3 invariant):
`(toward_b − toward_a) / (toward_a + toward_b)` when the denominator is nonzero,
else 0. -/
def spec_direction_bias (toward_a toward_b : Nat) : ℚ :=
  if toward_a + toward_b ≠ 0 then
    ((toward_b : ℚ) - (toward_a : ℚ)) / ((toward_a : ℚ) + (toward_b : ℚ))
  else 0

/-- Failing input for C3: a duty/desire tension that collapsed toward_b. -/
def c3_toward : Contra :=
  { pole_a := some ("duty"), pole_b := some ("desire"),
    collapse_direction := some ("toward_b"), scar_valence := some (1 / 2),
    refusal := some false }

/-- Failing input for C3: a second duty/desire tension with a balanced collapse. -/
def c3_balanced : Contra :=
  { pole_a := some ("duty"), pole_b := some ("desire"),
    collapse_direction := some ("balanced"), scar_valence := some (1 / 2),
    refusal := some false }

/-- C3: the direction-bias invariant holds for the `GraphBuilder` aggregation
(its emitted bias is exactly the spec formula, always lies in [-1, 1], and is 0
on equal directed counts), but the duplicated aggregation in
`run_build_pipeline` divides by the group frequency instead: on two duty/desire
tensions collapsing toward_b and balanced it emits 1/2 where the claimed
formula requires (1 − 0) / (0 + 1) = 1. -/
theorem direction_bias_formula_and_pipeline_divergence :
    (∀ g : GD, GraphBuilder.direction_bias g =
        spec_direction_bias g.toward_a g.toward_b)
    ∧ (∀ g : GD, -1 ≤ GraphBuilder.direction_bias g ∧
        GraphBuilder.direction_bias g ≤ 1)
    ∧ (∀ n : Nat, spec_direction_bias n n = 0)
    ∧ (run_build_pipeline_groups [c3_toward, c3_balanced]).2 (("desire"), ("duty")) =
        { frequency := 2, scar_sum := 1, refusal_count := 0, toward_a := 0,
          toward_b := 1 }
    ∧ pipeline_direction_bias
        ((run_build_pipeline_groups [c3_toward, c3_balanced]).2
          (("desire"), ("duty"))) = 1 / 2
    ∧ spec_direction_bias 0 1 = 1
    ∧ ((1 : ℚ) / 2 ≠ 1) := by
  have hkey1 : pipelineKey c3_toward = (("desire"), ("duty")) := by
    simp [pipelineKey, c3_toward, sortedPair]
    decide
  have hkey2 : pipelineKey c3_balanced = (("desire"), ("duty")) := by
    simp [pipelineKey, c3_balanced, sortedPair]
    decide
  have hfilter : [c3_toward, c3_balanced].filter
      (fun c => decide (pipelineKey c = (("desire"), ("duty")))) =
        [c3_toward, c3_balanced] := by
    simp only [List.filter_cons, List.filter_nil, hkey1, hkey2]
    simp
  have hdata : (run_build_pipeline_groups [c3_toward, c3_balanced]).2
      (("desire"), ("duty")) = pipelineAdd (pipelineAdd {} c3_toward) c3_balanced := by
    rw [run_build_pipeline_groups, dictFold_data, hfilter, List.foldl_cons,
      List.foldl_cons, List.foldl_nil]
  have heval : pipelineAdd (pipelineAdd {} c3_toward) c3_balanced =
      { frequency := 2, scar_sum := 1, refusal_count := 0, toward_a := 0,
        toward_b := 1 } := by
    simp only [pipelineAdd, c3_toward, c3_balanced, Option.getD_some]
    norm_num
    decide
  refine ⟨?_, ?_, ?_, hdata.trans heval, ?_, by norm_num [spec_direction_bias],
    by norm_num⟩
  · intro g
    rw [GraphBuilder.direction_bias, spec_direction_bias]
    by_cases h : 0 < g.toward_a + g.toward_b
    · rw [if_pos h, if_pos (by omega)]
    · rw [if_neg h, if_neg (by omega)]
  · intro g
    rw [GraphBuilder.direction_bias]
    by_cases h : 0 < g.toward_a + g.toward_b
    · rw [if_pos h]
      have ha : (0 : ℚ) ≤ (g.toward_a : ℚ) := Nat.cast_nonneg _
      have hb : (0 : ℚ) ≤ (g.toward_b : ℚ) := Nat.cast_nonneg _
      have hden : (0 : ℚ) < (g.toward_a : ℚ) + (g.toward_b : ℚ) := by
        have hcast : (0 : ℚ) < ((g.toward_a + g.toward_b : Nat) : ℚ) := by
          exact_mod_cast h
        push_cast at hcast
        linarith
      constructor
      · rw [le_div_iff hden]
        linarith
      · rw [div_le_one hden]
        linarith
    · rw [if_neg h]
      norm_num
  · intro n
    rw [spec_direction_bias]
    split_ifs <;> simp
  · rw [hdata.trans heval, pipeline_direction_bias]
    norm_num

/-- Order-insensitive content of an aggregated group: everything `_build_edges`
and `_build_nodes` read from it (the `phases` list only ever reaches the output
through `list(set(...))`, hence as a finite set). -/
def gdProj (g : GD) :
    Nat × ℚ × ℚ × Nat × Nat × Nat × Nat × Finset String × Finset String :=
  (g.frequency, g.scar_sum, g.scar_max, g.refusal_count, g.toward_a, g.toward_b,
    g.balanced, g.phases.toFinset, g.masks)

theorem gdProj_add_congr {g g' : GD} (h : gdProj g = gdProj g') (c : Contra) :
    gdProj (addContradiction g c) = gdProj (addContradiction g' c) := by
  simp only [gdProj, Prod.mk.injEq] at h
  obtain ⟨h1, h2, h3, h4, h5, h6, h7, h8, h9⟩ := h
  simp only [gdProj, addContradiction, Prod.mk.injEq, List.toFinset_append]
  rw [h1, h2, h3, h4, h5, h6, h7, h8, h9]
  simp only [List.toFinset_append]
  tauto

theorem gdProj_swap (g : GD) (x y : Contra) :
    gdProj (addContradiction (addContradiction g x) y) =
      gdProj (addContradiction (addContradiction g y) x) := by
  simp only [gdProj, addContradiction, Prod.mk.injEq, List.toFinset_append,
    List.append_assoc]
  refine ⟨?_, ?_, ?_, ?_, ?_, ?_, ?_, ?_, ?_⟩
  · trivial
  · ring
  · rw [max_assoc, max_assoc, max_comm (x.scar_valence.getD 0) (y.scar_valence.getD 0)]
  · exact Nat.add_right_comm _ _ _
  · exact Nat.add_right_comm _ _ _
  · exact Nat.add_right_comm _ _ _
  · exact Nat.add_right_comm _ _ _
  · rw [Finset.union_comm ((truthyOpt x.life_phase).toFinset)
      ((truthyOpt y.life_phase).toFinset)]
  · ext a
    simp only [Finset.mem_union, List.mem_toFinset]
    tauto

theorem gdProj_foldl_congr :
    ∀ (l : List Contra) {g g' : GD}, gdProj g = gdProj g' →
      gdProj (l.foldl addContradiction g) = gdProj (l.foldl addContradiction g') := by
  intro l
  induction l with
  | nil => intro g g' h; exact h
  | cons c cs ih =>
    intro g g' h
    rw [List.foldl_cons, List.foldl_cons]
    exact ih (gdProj_add_congr h c)

theorem gdProj_foldl_perm {l l' : List Contra} (h : l.Perm l') :
    ∀ g : GD, gdProj (l.foldl addContradiction g) =
      gdProj (l'.foldl addContradiction g) := by
  induction h with
  | nil => intro g; rfl
  | cons x h ih =>
    intro g
    rw [List.foldl_cons, List.foldl_cons]
    exact ih (addContradiction g x)
  | swap x y l =>
    intro g
    rw [List.foldl_cons, List.foldl_cons, List.foldl_cons, List.foldl_cons]
    exact gdProj_foldl_congr l (gdProj_swap g y x)
  | trans h1 h2 ih1 ih2 =>
    intro g
    exact (ih1 g).trans (ih2 g)

theorem edgeOf_congr {g g' : GD} (k : String × String) (h : gdProj g = gdProj g') :
    GraphBuilder.edgeOf k g = GraphBuilder.edgeOf k g' := by
  simp only [gdProj, Prod.mk.injEq] at h
  obtain ⟨h1, h2, h3, h4, h5, h6, h7, h8, h9⟩ := h
  simp only [GraphBuilder.edgeOf, GraphBuilder.direction_bias]
  rw [h1, h2, h3, h4, h5, h6, h8, h9]

theorem nsAdd_congr (ns : GraphBuilder.NodeStats) {g g' : GD}
    (h : gdProj g = gdProj g') : GraphBuilder.nsAdd ns g = GraphBuilder.nsAdd ns g' := by
  simp only [gdProj, Prod.mk.injEq] at h
  obtain ⟨h1, h2, h3, h4, h5, h6, h7, h8, h9⟩ := h
  simp only [GraphBuilder.nsAdd]
  rw [h1, h2, h4]

theorem nsAdd_foldl_swap (ns : GraphBuilder.NodeStats) (x y : String × GD) :
    GraphBuilder.nsAdd (GraphBuilder.nsAdd ns x.2) y.2 =
      GraphBuilder.nsAdd (GraphBuilder.nsAdd ns y.2) x.2 := by
  simp only [GraphBuilder.nsAdd, GraphBuilder.NodeStats.mk.injEq]
  refine ⟨?_, ?_, ?_, ?_⟩ <;>
    first
      | trivial
      | ring
      | (exact Nat.add_right_comm _ _ _)

theorem nsAdd_foldl_perm {l l' : List (String × GD)} (h : l.Perm l') :
    ∀ ns : GraphBuilder.NodeStats,
      l.foldl (fun ns x => GraphBuilder.nsAdd ns x.2) ns =
        l'.foldl (fun ns x => GraphBuilder.nsAdd ns x.2) ns := by
  induction h with
  | nil => intro ns; rfl
  | cons x h ih =>
    intro ns
    rw [List.foldl_cons, List.foldl_cons]
    exact ih _
  | swap x y l =>
    intro ns
    rw [List.foldl_cons, List.foldl_cons, List.foldl_cons, List.foldl_cons,
      nsAdd_foldl_swap]
  | trans h1 h2 ih1 ih2 =>
    intro ns
    rw [ih1, ih2]

theorem agg_keys_toFinset_eq {cs cs' : List Contra} (h : cs.Perm cs') :
    (GraphBuilder._aggregate_contradictions cs).1.toFinset =
      (GraphBuilder._aggregate_contradictions cs').1.toFinset := by
  ext k
  simp only [List.mem_toFinset, GraphBuilder._aggregate_contradictions,
    dictFold_mem_keys]
  constructor
  · rintro ⟨a, ha, hk⟩
    exact ⟨a, (h.filter validPoles).mem_iff.mp ha, hk⟩
  · rintro ⟨a, ha, hk⟩
    exact ⟨a, (h.filter validPoles).mem_iff.mpr ha, hk⟩

theorem agg_keys_perm {cs cs' : List Contra} (h : cs.Perm cs') :
    (GraphBuilder._aggregate_contradictions cs).1.Perm
      (GraphBuilder._aggregate_contradictions cs').1 :=
  List.perm_of_nodup_nodup_toFinset_eq
    (dictFold_nodup contraKey addContradiction {} (cs.filter validPoles))
    (dictFold_nodup contraKey addContradiction {} (cs'.filter validPoles))
    (agg_keys_toFinset_eq h)

theorem agg_data_proj {cs cs' : List Contra} (h : cs.Perm cs')
    (k : String × String) :
    gdProj ((GraphBuilder._aggregate_contradictions cs).2 k) =
      gdProj ((GraphBuilder._aggregate_contradictions cs').2 k) := by
  rw [GraphBuilder._aggregate_contradictions, dictFold_data,
    GraphBuilder._aggregate_contradictions, dictFold_data]
  exact gdProj_foldl_perm
    ((h.filter validPoles).filter (fun a => decide (contraKey a = k))) {}

theorem build_edges_toFinset_perm {cs cs' : List Contra} (h : cs.Perm cs') :
    (GraphBuilder._build_edges (GraphBuilder._aggregate_contradictions cs)).toFinset =
      (GraphBuilder._build_edges
        (GraphBuilder._aggregate_contradictions cs')).toFinset := by
  have hfun : (fun k => GraphBuilder.edgeOf k
        ((GraphBuilder._aggregate_contradictions cs).2 k)) =
      (fun k => GraphBuilder.edgeOf k
        ((GraphBuilder._aggregate_contradictions cs').2 k)) :=
    funext (fun k => edgeOf_congr k (agg_data_proj h k))
  rw [GraphBuilder._build_edges, GraphBuilder._build_edges, hfun]
  exact List.toFinset_eq_of_perm _ _ ((agg_keys_perm h).map _)

theorem expandPoles_map (keys : List (String × String)) (d : String × String → GD) :
    GraphBuilder.expandPoles (keys.map (fun k => (k, d k))) =
      keys.flatMap (fun k => [(k.1, d k), (k.2, d k)]) := by
  induction keys with
  | nil => rfl
  | cons k keys ih =>
    simp only [List.map_cons, GraphBuilder.expandPoles, List.flatMap_cons] at ih ⊢
    rw [ih]

theorem incidence_fold_congr :
    ∀ (keys : List (String × String)) (d d' : String × String → GD),
      (∀ k, gdProj (d k) = gdProj (d' k)) →
      ∀ (p : String) (ns : GraphBuilder.NodeStats),
        ((keys.flatMap (fun k => [(k.1, d k), (k.2, d k)])).filter
            (fun x => decide (x.1 = p))).foldl
          (fun ns x => GraphBuilder.nsAdd ns x.2) ns =
        ((keys.flatMap (fun k => [(k.1, d' k), (k.2, d' k)])).filter
            (fun x => decide (x.1 = p))).foldl
          (fun ns x => GraphBuilder.nsAdd ns x.2) ns := by
  intro keys
  induction keys with
  | nil => intro d d' hd p ns; rfl
  | cons k keys ih =>
    intro d d' hd p ns
    simp only [List.flatMap_cons, List.filter_append, List.foldl_append]
    have hfront : ∀ ns0 : GraphBuilder.NodeStats,
        ([(k.1, d k), (k.2, d k)].filter (fun x => decide (x.1 = p))).foldl
            (fun ns x => GraphBuilder.nsAdd ns x.2) ns0 =
          ([(k.1, d' k), (k.2, d' k)].filter (fun x => decide (x.1 = p))).foldl
            (fun ns x => GraphBuilder.nsAdd ns x.2) ns0 := by
      intro ns0
      by_cases h1 : k.1 = p <;> by_cases h2 : k.2 = p <;> simp [h1, h2]
      all_goals try rfl
      all_goals rw [nsAdd_congr ns0 (hd k)]
      all_goals rw [nsAdd_congr (GraphBuilder.nsAdd ns0 (d' k)) (hd k)]
    rw [hfront ns]
    exact ih d d' hd p _

theorem poleStats_mem (s : List (String × String) × (String × String → GD))
    (p : String) :
    p ∈ (GraphBuilder.poleStats s).1 ↔ ∃ k ∈ s.1, k.1 = p ∨ k.2 = p := by
  rw [GraphBuilder.poleStats, dictFold_mem_keys, expandPoles_map]
  simp only [List.mem_flatMap, List.mem_cons, List.not_mem_nil, or_false]
  constructor
  · rintro ⟨x, ⟨k, hk, hx | hx⟩, hxp⟩
    · rw [hx] at hxp
      exact ⟨k, hk, Or.inl hxp⟩
    · rw [hx] at hxp
      exact ⟨k, hk, Or.inr hxp⟩
  · rintro ⟨k, hk, hp | hp⟩
    · exact ⟨(k.1, s.2 k), ⟨k, hk, Or.inl rfl⟩, hp⟩
    · exact ⟨(k.2, s.2 k), ⟨k, hk, Or.inr rfl⟩, hp⟩

theorem poleStats_keys_perm {cs cs' : List Contra} (h : cs.Perm cs') :
    (GraphBuilder.poleStats (GraphBuilder._aggregate_contradictions cs)).1.Perm
      (GraphBuilder.poleStats (GraphBuilder._aggregate_contradictions cs')).1 := by
  refine List.perm_of_nodup_nodup_toFinset_eq
    (dictFold_nodup _ _ _ _) (dictFold_nodup _ _ _ _) ?_
  ext p
  simp only [List.mem_toFinset, poleStats_mem]
  have hkeys : ∀ k, k ∈ (GraphBuilder._aggregate_contradictions cs).1 ↔
      k ∈ (GraphBuilder._aggregate_contradictions cs').1 := by
    intro k
    have hfin := agg_keys_toFinset_eq h
    rw [Finset.ext_iff] at hfin
    simpa using hfin k
  constructor
  · rintro ⟨k, hk, hp⟩
    exact ⟨k, (hkeys k).mp hk, hp⟩
  · rintro ⟨k, hk, hp⟩
    exact ⟨k, (hkeys k).mpr hk, hp⟩

theorem poleStats_stats_eq {cs cs' : List Contra} (h : cs.Perm cs') (p : String) :
    (GraphBuilder.poleStats (GraphBuilder._aggregate_contradictions cs)).2 p =
      (GraphBuilder.poleStats (GraphBuilder._aggregate_contradictions cs')).2 p := by
  rw [GraphBuilder.poleStats, dictFold_data, GraphBuilder.poleStats, dictFold_data,
    expandPoles_map, expandPoles_map]
  have hperm := List.Perm.flatMap_right
    (fun k => [(k.1, (GraphBuilder._aggregate_contradictions cs).2 k),
      (k.2, (GraphBuilder._aggregate_contradictions cs).2 k)]) (agg_keys_perm h)
  rw [nsAdd_foldl_perm (hperm.filter (fun x => decide (x.1 = p))) {}]
  exact incidence_fold_congr (GraphBuilder._aggregate_contradictions cs').1 _ _
    (fun k => agg_data_proj h k) p {}

theorem build_nodes_toFinset_perm {cs cs' : List Contra} (h : cs.Perm cs') :
    (GraphBuilder._build_nodes (GraphBuilder._aggregate_contradictions cs)).toFinset =
      (GraphBuilder._build_nodes
        (GraphBuilder._aggregate_contradictions cs')).toFinset := by
  have hfun : (fun p => GraphBuilder.nodeOf p
        ((GraphBuilder.poleStats (GraphBuilder._aggregate_contradictions cs)).2 p)) =
      (fun p => GraphBuilder.nodeOf p
        ((GraphBuilder.poleStats (GraphBuilder._aggregate_contradictions cs')).2 p)) :=
    funext fun p => by rw [poleStats_stats_eq h p]
  rw [GraphBuilder._build_nodes, GraphBuilder._build_nodes, hfun]
  exact List.toFinset_eq_of_perm _ _ ((poleStats_keys_perm h).map _)

/-- C4: graph aggregation is a pure function of the input set of tensions:
running `_aggregate_contradictions` followed by `_build_edges` / `_build_nodes`
twice on the same list yields identical results, and permuting the input tension
list leaves the resulting edge set and node set unchanged. -/
theorem graph_aggregation_deterministic_and_order_invariant :
    (∀ cs : List Contra,
      GraphBuilder._build_edges (GraphBuilder._aggregate_contradictions cs) =
        GraphBuilder._build_edges (GraphBuilder._aggregate_contradictions cs) ∧
      GraphBuilder._build_nodes (GraphBuilder._aggregate_contradictions cs) =
        GraphBuilder._build_nodes (GraphBuilder._aggregate_contradictions cs))
    ∧ (∀ cs cs' : List Contra, cs.Perm cs' →
      (GraphBuilder._build_edges
          (GraphBuilder._aggregate_contradictions cs)).toFinset =
        (GraphBuilder._build_edges
          (GraphBuilder._aggregate_contradictions cs')).toFinset ∧
      (GraphBuilder._build_nodes
          (GraphBuilder._aggregate_contradictions cs)).toFinset =
        (GraphBuilder._build_nodes
          (GraphBuilder._aggregate_contradictions cs')).toFinset) :=
  ⟨fun _ => ⟨rfl, rfl⟩,
    fun _ _ h => ⟨build_edges_toFinset_perm h, build_nodes_toFinset_perm h⟩⟩

/-- Concrete tension for the C4 witness. -/
def c4_t1 : Contra :=
  { pole_a := some ("duty"), pole_b := some ("desire"), scar_valence := some 1,
    life_phase := some ("mid") }

/-- Second concrete tension for the C4 witness. -/
def c4_t2 : Contra :=
  { pole_a := some ("reason"), pole_b := some ("emotion"), refusal := some true }

/-- Witness for C4 at a concrete pair of permuted tension lists. -/
theorem graph_aggregation_deterministic_and_order_invariant_witness :
    [c4_t1, c4_t2].Perm [c4_t2, c4_t1] ∧
      (GraphBuilder._build_edges
          (GraphBuilder._aggregate_contradictions [c4_t1, c4_t2])).toFinset =
        (GraphBuilder._build_edges
          (GraphBuilder._aggregate_contradictions [c4_t2, c4_t1])).toFinset ∧
      (GraphBuilder._build_nodes
          (GraphBuilder._aggregate_contradictions [c4_t1, c4_t2])).toFinset =
        (GraphBuilder._build_nodes
          (GraphBuilder._aggregate_contradictions [c4_t2, c4_t1])).toFinset :=
  ⟨List.Perm.swap c4_t2 c4_t1 [],
    (graph_aggregation_deterministic_and_order_invariant.2 [c4_t1, c4_t2]
      [c4_t2, c4_t1] (List.Perm.swap c4_t2 c4_t1 [])).1,
    (graph_aggregation_deterministic_and_order_invariant.2 [c4_t1, c4_t2]
      [c4_t2, c4_t1] (List.Perm.swap c4_t2 c4_t1 [])).2⟩

/-- Result dict of the refusal gate: `{refuse, message}` as consumed by the
`/chat` route of src/app.py. -/
structure ClearResult where
  refuse : Bool
  message : String
deriving DecidableEq

/-- Modelled from the spec: `run_clear`, the three-rule refusal gate.  The
function is imported by src/app.py (`from modules.clear_gate import run_clear`)
but is not defined anywhere under src/, so it is modelled from spec section 4.6:
rule 1 (empty context), rule 2 (repeated refusals above a count threshold,
default 5), rule 3 (maximum scar valence above a threshold, default 0.95),
evaluated in that fixed order with the first matching rule winning, else
continue.  Rule 3's "maximum scar_valence among retrieved tensions exceeds the
threshold" is rendered as "some tension's scar valence exceeds the threshold",
which coincides with the maximum formulation on every nonempty pack and is
vacuously silent on an empty tension list. -/
def run_clear (refusal_count_threshold : Nat) (scar_threshold : ℚ)
    (tensions : List Contra) (chunks : List Chunk) : ClearResult :=
  if tensions = [] ∧ chunks = [] then
    { refuse := true, message := "insufficient context" }
  else if tensions.any (fun t =>
      t.refusal.getD false && decide (refusal_count_threshold < t.refusal_count.getD 0)) then
    { refuse := true, message := "prior scars warn against it" }
  else if tensions.any (fun t => decide (scar_threshold < t.scar_valence.getD 0)) then
    { refuse := true, message := "extreme remembered cost" }
  else
    { refuse := false, message := "" }

/-- Default thresholds of the spec's three-rule gate (section 4.6). -/
def run_clear_default_refusal_count_threshold : Nat := 5

/-- Default scar-valence threshold of the spec's extreme-intensity rule. -/
def run_clear_default_scar_threshold : ℚ := 95 / 100

/-- C1: for every context pack with both the tension list and the chunk list
empty, the gate refuses with reason "insufficient context" (rule 1), and every
pack with a non-empty tension list or a non-empty chunk list passes rule 1: its
outcome, refusal or not, never carries that reason. -/
theorem run_clear_empty_context_rule :
    (∀ (rct : Nat) (st : ℚ) (tensions : List Contra) (chunks : List Chunk),
      tensions = [] → chunks = [] →
        run_clear rct st tensions chunks =
          { refuse := true, message := "insufficient context" })
    ∧ (∀ (rct : Nat) (st : ℚ) (tensions : List Contra) (chunks : List Chunk),
      tensions ≠ [] ∨ chunks ≠ [] →
        (run_clear rct st tensions chunks).message ≠ "insufficient context") := by
  constructor
  · intro rct st tensions chunks ht hc
    rw [run_clear, if_pos ⟨ht, hc⟩]
  · intro rct st tensions chunks hne
    have hguard : ¬(tensions = [] ∧ chunks = []) := by tauto
    rw [run_clear, if_neg hguard]
    split_ifs <;> simp

/-- Witness for C1 at the empty pack and at default thresholds. -/
theorem run_clear_empty_context_rule_witness :
    (([] : List Contra) = [] ∧ ([] : List Chunk) = []) ∧
      run_clear run_clear_default_refusal_count_threshold
          run_clear_default_scar_threshold [] [] =
        { refuse := true, message := "insufficient context" } :=
  ⟨⟨rfl, rfl⟩,
    run_clear_empty_context_rule.1 run_clear_default_refusal_count_threshold
      run_clear_default_scar_threshold [] [] rfl rfl⟩

/-- C2: whenever some retrieved tension's scar valence exceeds the configured
threshold the gate refuses; when additionally the repeated-refusal rule is
silent the reason is "extreme remembered cost"; with the default threshold 0.95
a pack whose only tension has scar valence 0.96 is refused with that reason,
and one whose only tension has scar valence 0.94 with no other trigger
continues. -/
theorem run_clear_extreme_intensity_rule :
    (∀ (rct : Nat) (st : ℚ) (tensions : List Contra) (chunks : List Chunk),
      (∃ t ∈ tensions, st < t.scar_valence.getD 0) →
        (run_clear rct st tensions chunks).refuse = true)
    ∧ (∀ (rct : Nat) (st : ℚ) (tensions : List Contra) (chunks : List Chunk),
      (∀ t ∈ tensions,
        ¬(t.refusal.getD false = true ∧ rct < t.refusal_count.getD 0)) →
      (∃ t ∈ tensions, st < t.scar_valence.getD 0) →
        run_clear rct st tensions chunks =
          { refuse := true, message := "extreme remembered cost" })
    ∧ run_clear run_clear_default_refusal_count_threshold
        run_clear_default_scar_threshold
        [{ scar_valence := some (96 / 100), refusal := some false }] [] =
        { refuse := true, message := "extreme remembered cost" }
    ∧ run_clear run_clear_default_refusal_count_threshold
        run_clear_default_scar_threshold
        [{ scar_valence := some (94 / 100), refusal := some false }] [] =
        { refuse := false, message := "" } := by
  have hrule2silent : ∀ (rct : Nat) (tensions : List Contra),
      (∀ t ∈ tensions,
        ¬(t.refusal.getD false = true ∧ rct < t.refusal_count.getD 0)) →
      tensions.any (fun t =>
        t.refusal.getD false && decide (rct < t.refusal_count.getD 0)) = false := by
    intro rct tensions hno
    rw [List.any_eq_false]
    intro t ht
    have := hno t ht
    simp only [Bool.and_eq_true, decide_eq_true_eq]
    tauto
  refine ⟨?_, ?_, ?_, ?_⟩
  · intro rct st tensions chunks hex
    obtain ⟨t, ht, hst⟩ := hex
    have hts : tensions ≠ [] := List.ne_nil_of_mem ht
    rw [run_clear, if_neg (by tauto)]
    by_cases h2 : tensions.any (fun t =>
        t.refusal.getD false && decide (rct < t.refusal_count.getD 0)) = true
    · rw [if_pos h2]
    · rw [if_neg h2,
        if_pos (List.any_eq_true.mpr ⟨t, ht, by simp [hst]⟩)]
  · intro rct st tensions chunks hno hex
    obtain ⟨t, ht, hst⟩ := hex
    have hts : tensions ≠ [] := List.ne_nil_of_mem ht
    rw [run_clear, if_neg (by tauto)]
    rw [if_neg (by simp [hrule2silent rct tensions hno])]
    rw [if_pos (List.any_eq_true.mpr ⟨t, ht, by simp [hst]⟩)]
  · rw [run_clear, if_neg (by simp), if_neg (by simp),
      if_pos (by norm_num [run_clear_default_scar_threshold])]
  · rw [run_clear, if_neg (by simp), if_neg (by simp),
      if_neg (by norm_num [run_clear_default_scar_threshold])]

/-- Witness for C2 at a concrete single-tension pack over threshold. -/
theorem run_clear_extreme_intensity_rule_witness :
    (∃ t ∈ [({ scar_valence := some (96 / 100), refusal := some false } : Contra)],
        run_clear_default_scar_threshold < t.scar_valence.getD 0) ∧
      (run_clear run_clear_default_refusal_count_threshold
          run_clear_default_scar_threshold
          [{ scar_valence := some (96 / 100), refusal := some false }] []).refuse =
        true :=
  ⟨⟨{ scar_valence := some (96 / 100), refusal := some false },
      List.mem_singleton.mpr rfl,
      by norm_num [run_clear_default_scar_threshold]⟩,
    run_clear_extreme_intensity_rule.1 run_clear_default_refusal_count_threshold
      run_clear_default_scar_threshold
      [{ scar_valence := some (96 / 100), refusal := some false }] []
      ⟨{ scar_valence := some (96 / 100), refusal := some false },
        List.mem_singleton.mpr rfl,
        by norm_num [run_clear_default_scar_threshold]⟩⟩
